import Mathlib

/-!
# Verification of the tuple-einsum runtime core

Shallow embedding of `src/runtime.py` and `src/opcheck.py`:

* `equal_tens` — tolerance-aware tensor equality (`runtime.py`, lines 7–13);
* `Shape` operations over an explicit heap of shape records, modelling
  Python object identity of `Shape` instances (`runtime.py`, lines 15–35);
* `EinTup` — primary/shadow index groups sharing `Shape` identity
  (`runtime.py`, lines 38–93);
* `ndindex` — row-major multi-index enumeration (`np.ndindex`), used by
  both `EinTup.__iter__` and `Runtime.gen_shapes`;
* `Runtime.parse_et_file` section splitting and `Runtime.run`
  (`runtime.py`, lines 142–184);
* `Runtime.gen_shapes` rank search (`runtime.py`, lines 188–196);
* the `opcheck` instrumentation wrapper (`opcheck.py`, lines 19–55).

Machine integers: `EinTup.nelem` computes `np.prod(dims, dtype=np.int32)`,
which is the product wrapped to a signed 32-bit integer at every
multiplication step; this is embedded exactly (`wrap32`).
-/

/-! ## Tensors and `equal_tens` (runtime.py lines 7–13)

A tensor value is embedded as its shape, its element dtype, and its
elements flattened in row-major order.  Elements are rationals: the
claims about `equal_tens` concern the shape test and the
tolerance-forcing logic, which are exact arithmetic comparisons.
TensorFlow performs no implicit dtype promotion in binary ops: `a - b`
raises InvalidArgumentError when the operands' dtypes differ, and
Python's short-circuiting `and` means the subtraction is only reached
once the shape test has already passed. -/

abbrev Dims := List Int

structure Heap where
  shapes : List (Option Dims)
deriving DecidableEq

/-- The errors raised by runtime.py (all `RuntimeError` in the source,
distinguished here by their message) plus the Python machinery errors the
code can hit. -/
inductive PyErr where
  | uninitializedShape
  | indexOutOfRange
  | illegalMutation
  | unknownGroup
  | attributeError (field : String)
  | stopIteration
deriving DecidableEq

/-- `Shape.set` (runtime.py line 20): replace dims wholesale,
unconditionally (the `int(d)` coercion is identity here since dims are
already integers). -/
def Shape.set (h : Heap) (r : Nat) (ds : Dims) : Heap :=
  ⟨h.shapes.set r (some ds)⟩

/-- `Shape.get` (runtime.py line 32): fails on an uninitialized shape. -/
def Shape.get (h : Heap) (r : Nat) : Except PyErr Dims :=
  match h.shapes.getD r none with
  | none => .error .uninitializedShape
  | some ds => .ok ds

/-- `Shape.set_elem` (runtime.py line 23): fails on an uninitialized
shape, or when `ind >= len(self.dims)`; otherwise mutates one axis. -/
def Shape.set_elem (h : Heap) (r : Nat) (i : Nat) (v : Int) :
    Except PyErr Heap :=
  match h.shapes.getD r none with
  | none => .error .uninitializedShape
  | some ds =>
      if ds.length ≤ i then .error .indexOutOfRange
      else .ok ⟨h.shapes.set r (some (ds.set i v))⟩

/-- An `EinTup` (runtime.py line 38): `shadow_of` records the owner's
name (`None` for a primary), `shapeRef` the heap index of its `Shape`.
`index`/`val` are the `np.ndindex` iterator state and `_value`; `index`
is absent until the first `__iter__` call. -/
structure EinTup where
  name : String
  shadow_of : Option String
  shapeRef : Nat
  index : Option (List (List Nat))
  val : Option (List Nat)
deriving DecidableEq

/-- `EinTup.__init__` (runtime.py lines 39–43): a primary allocates a
fresh uninitialized `Shape`; a shadow aliases its owner's `Shape`
(`self.shape = shadow_of.shape`), by reference, not by copy. -/
def mkEinTup (nm : String) (owner : Option EinTup) (h : Heap) :
    EinTup × Heap :=
  match owner with
  | none => (⟨nm, none, h.shapes.length, none, none⟩, ⟨h.shapes ++ [none]⟩)
  | some o => (⟨nm, some o.name, o.shapeRef, none, none⟩, h)

/-- `EinTup.primary` (runtime.py line 67). -/
def EinTup.primary (t : EinTup) : Bool :=
  t.shadow_of.isNone

/-- `EinTup.same_shape_as` (runtime.py line 70): `self.shape is
other.shape` — identity of the referenced `Shape` instances. -/
def EinTup.same_shape_as (t u : EinTup) : Bool :=
  decide (t.shapeRef = u.shapeRef)

/-- `EinTup.dims` (runtime.py line 73). -/
def EinTup.dims (t : EinTup) (h : Heap) : Except PyErr Dims :=
  Shape.get h t.shapeRef

/-- `EinTup.rank` (runtime.py line 76). -/
def EinTup.rank (t : EinTup) (h : Heap) : Except PyErr Nat :=
  (t.dims h).map List.length

/-- `EinTup.set_dims` (runtime.py line 82): raises on a shadowing
EinTup, otherwise replaces the shared Shape's dims. -/
def EinTup.set_dims (t : EinTup) (ds : Dims) (h : Heap) :
    Except PyErr Heap :=
  if t.shadow_of.isSome then .error .illegalMutation
  else .ok (Shape.set h t.shapeRef ds)

/-- `EinTup.set_dim` (runtime.py line 87): delegates straight to
`Shape.set_elem`, with no primary/shadow check. -/
def EinTup.set_dim (t : EinTup) (i : Nat) (v : Int) (h : Heap) :
    Except PyErr Heap :=
  Shape.set_elem h t.shapeRef i v

/-- Signed 32-bit wraparound, the behaviour of one `np.int32`
multiplication step. -/
def wrap32 (n : Int) : Int :=
  (n + 2147483648) % 4294967296 - 2147483648

/-- `np.prod(dims, dtype=np.int32)`: the product accumulated in a signed
32-bit integer, wrapping at every step; the empty product is 1. -/
def prod32 (ds : Dims) : Int :=
  ds.foldl (fun a d => wrap32 (a * d)) 1

/-- `EinTup.nelem` (runtime.py line 79): `np.prod(self.dims(),
dtype=np.int32)`. -/
def EinTup.nelem (t : EinTup) (h : Heap) : Except PyErr Int :=
  (t.dims h).map prod32

/-- `np.ndindex(*dims)`: all multi-indices of `dims` in row-major order
(first coordinate varies slowest). -/
def ndindex (dims : List Nat) : List (List Nat) :=
  match dims with
  | [] => [[]]
  | d :: rest => (List.range d).flatMap (fun i => (ndindex rest).map (fun l => i :: l))

/-- `EinTup.__iter__` (runtime.py line 58): unconditionally rebuilds the
iterator from the current dims (restart from scratch), whatever iterator
state was there before. -/
def EinTup.iter (t : EinTup) (h : Heap) : Except PyErr EinTup :=
  (t.dims h).map (fun ds => { t with index := some (ndindex (ds.map Int.toNat)) })

/-- `EinTup.__next__` (runtime.py line 62): advances the stored
`np.ndindex` iterator, records `_value`, and returns it. -/
def EinTup.enext (t : EinTup) : Except PyErr (EinTup × List Nat) :=
  match t.index with
  | none => .error (.attributeError "index")
  | some [] => .error .stopIteration
  | some (v :: rest) => .ok ({ t with index := some rest, val := some v }, v)

/-! ### Helper lemmas about the heap -/

theorem getD_set_self {α : Type} : ∀ (l : List α) (i : Nat) (a d : α),
    i < l.length → (l.set i a).getD i d = a := by
  intro l
  induction l with
  | nil => intro i a d hi; simp at hi
  | cons x xs ih =>
      intro i a d hi
      cases i with
      | zero => rfl
      | succ j =>
          simp only [List.set, List.getD, List.get?, List.length_cons] at *
          exact ih j a d (by omega)

theorem getD_append_len {α : Type} : ∀ (l : List α) (x d : α),
    (l ++ [x]).getD l.length d = x := by
  intro l
  induction l with
  | nil => intro x d; rfl
  | cons y ys ih => intro x d; exact ih x d

theorem Shape.get_set_self (h : Heap) (r : Nat) (ds : Dims)
    (hr : r < h.shapes.length) :
    Shape.get (Shape.set h r ds) r = .ok ds := by
  unfold Shape.get Shape.set
  rw [getD_set_self h.shapes r (some ds) none hr]

theorem Shape.set_elem_found (h : Heap) (r i : Nat) (v : Int) (ds : Dims)
    (hget : h.shapes.getD r none = some ds) (hi : i < ds.length) :
    Shape.set_elem h r i v = .ok ⟨h.shapes.set r (some (ds.set i v))⟩ := by
  unfold Shape.set_elem
  rw [hget]
  simp [Nat.not_le.mpr hi]

theorem Shape.get_found (h : Heap) (r : Nat) (ds : Dims)
    (hget : h.shapes.getD r none = some ds) :
    Shape.get h r = .ok ds := by
  unfold Shape.get
  rw [hget]

/-! ## C6 and C7: shadow aliasing -/

/-- C6: for every heap and every Primary `p` and Shadow `sh` constructed
with owner `p`, `sh.same_shape_as p` holds immediately after construction
(the two hold the identical Shape reference), keeps holding after any
`p.set_dims`, the shadow reads the owner's new dims through the shared
Shape, and `sh.set_dims` always fails with the illegal-mutation error (in
this embedding a failing `set_dims` returns no heap, so the shared dims
are unchanged). -/
theorem shadow_same_shape_invariant (h : Heap) (n1 n2 : String)
    (ds ds2 : Dims) :
    EinTup.same_shape_as
        (mkEinTup n2 (some (mkEinTup n1 none h).1) (mkEinTup n1 none h).2).1
        (mkEinTup n1 none h).1 = true
      ∧ (∀ h3 : Heap,
          EinTup.set_dims
            (mkEinTup n2 (some (mkEinTup n1 none h).1) (mkEinTup n1 none h).2).1
            ds2 h3 = .error .illegalMutation)
      ∧ EinTup.set_dims (mkEinTup n1 none h).1 ds
            (mkEinTup n2 (some (mkEinTup n1 none h).1) (mkEinTup n1 none h).2).2
          = .ok (Shape.set
              (mkEinTup n2 (some (mkEinTup n1 none h).1) (mkEinTup n1 none h).2).2
              (mkEinTup n1 none h).1.shapeRef ds)
      ∧ EinTup.dims
            (mkEinTup n2 (some (mkEinTup n1 none h).1) (mkEinTup n1 none h).2).1
            (Shape.set
              (mkEinTup n2 (some (mkEinTup n1 none h).1) (mkEinTup n1 none h).2).2
              (mkEinTup n1 none h).1.shapeRef ds)
          = .ok ds := by
  refine ⟨by simp [mkEinTup, EinTup.same_shape_as], ?_, ?_, ?_⟩
  · intro h3
    simp [mkEinTup, EinTup.set_dims]
  · simp [mkEinTup, EinTup.set_dims]
  · simp only [mkEinTup, EinTup.dims]
    exact Shape.get_set_self ⟨h.shapes ++ [none]⟩ h.shapes.length ds
      (by simp)

/-- C7: `set_dim` has no primary/shadow guard: on a Shadow whose shared
Shape has been initialized to rank `k`, `sh.set_dim i v` with `i < k`
succeeds and mutates the Shape shared with the owner, so the owner reads
the updated dims. -/
theorem set_dim_on_shadow_mutates_owner (h : Heap) (n1 n2 : String)
    (ds : Dims) (i : Nat) (v : Int) (hi : i < ds.length) :
    ∃ h4 : Heap,
      EinTup.set_dim
          (mkEinTup n2 (some (mkEinTup n1 none h).1) (mkEinTup n1 none h).2).1
          i v
          (Shape.set
            (mkEinTup n2 (some (mkEinTup n1 none h).1) (mkEinTup n1 none h).2).2
            (mkEinTup n1 none h).1.shapeRef ds)
        = .ok h4
      ∧ EinTup.dims (mkEinTup n1 none h).1 h4 = .ok (ds.set i v)
      ∧ EinTup.dims
          (mkEinTup n2 (some (mkEinTup n1 none h).1) (mkEinTup n1 none h).2).1
          h4 = .ok (ds.set i v) := by
  simp only [mkEinTup, EinTup.set_dim, EinTup.dims]
  have hget : ((Shape.set ⟨h.shapes ++ [none]⟩ h.shapes.length ds).shapes).getD
      h.shapes.length none = some ds := by
    unfold Shape.set
    exact getD_set_self _ _ _ _ (by simp)
  refine ⟨⟨(Shape.set ⟨h.shapes ++ [none]⟩ h.shapes.length ds).shapes.set
      h.shapes.length (some (ds.set i v))⟩, ?_, ?_, ?_⟩
  · exact Shape.set_elem_found _ _ _ _ _ hget hi
  · exact Shape.get_found _ _ _
      (getD_set_self _ _ _ _ (by unfold Shape.set; simp))
  · exact Shape.get_found _ _ _
      (getD_set_self _ _ _ _ (by unfold Shape.set; simp))

/-- Witness for C7 at a concrete input: heap empty, dims `[2, 3]`,
axis 0 set to 7. -/
theorem set_dim_on_shadow_mutates_owner_witness :
    0 < ([2, 3] : Dims).length ∧
      ∃ h4 : Heap,
        EinTup.set_dim
            (mkEinTup "s" (some (mkEinTup "p" none ⟨[]⟩).1)
              (mkEinTup "p" none ⟨[]⟩).2).1
            0 7
            (Shape.set
              (mkEinTup "s" (some (mkEinTup "p" none ⟨[]⟩).1)
                (mkEinTup "p" none ⟨[]⟩).2).2
              (mkEinTup "p" none ⟨[]⟩).1.shapeRef [2, 3])
          = .ok h4
        ∧ EinTup.dims (mkEinTup "p" none ⟨[]⟩).1 h4 = .ok ([2, 3].set 0 7)
        ∧ EinTup.dims
            (mkEinTup "s" (some (mkEinTup "p" none ⟨[]⟩).1)
              (mkEinTup "p" none ⟨[]⟩).2).1
            h4 = .ok ([2, 3].set 0 7) :=
  ⟨by decide, set_dim_on_shadow_mutates_owner ⟨[]⟩ "p" "s" [2, 3] 0 7 (by decide)⟩

/-! ## C3: `equal_tens`, dtypes and the error path -/

theorem wrap32_emod (n : Int) : wrap32 n % 4294967296 = n % 4294967296 := by
  unfold wrap32
  omega

theorem wrap32_lb (n : Int) : -2147483648 ≤ wrap32 n := by
  unfold wrap32
  omega

theorem wrap32_ub (n : Int) : wrap32 n < 2147483648 := by
  unfold wrap32
  omega

theorem prod32_foldl_emod : ∀ (ds : Dims) (a : Int),
    (ds.foldl (fun x d => wrap32 (x * d)) a) % 4294967296
      = (a * ds.prod) % 4294967296 := by
  intro ds
  induction ds with
  | nil => intro a; simp
  | cons d rest ih =>
      intro a
      rw [List.foldl_cons, ih (wrap32 (a * d)), List.prod_cons]
      rw [Int.mul_emod, wrap32_emod, ← Int.mul_emod, ← mul_assoc]

theorem prod32_foldl_range : ∀ (ds : Dims) (a : Int), ds ≠ [] →
    -2147483648 ≤ ds.foldl (fun x d => wrap32 (x * d)) a
      ∧ ds.foldl (fun x d => wrap32 (x * d)) a < 2147483648 := by
  intro ds
  induction ds with
  | nil => intro a hne; exact absurd rfl hne
  | cons d rest ih =>
      intro a _
      rw [List.foldl_cons]
      cases rest with
      | nil => exact ⟨wrap32_lb (a * d), wrap32_ub (a * d)⟩
      | cons e tail => exact ih (wrap32 (a * d)) (by simp)

/-- The amended C9: `nelem` returns the exact product of the dims
(empty product = 1) whenever the dims are non-negative and that product
fits in a signed 32-bit integer; in general it returns the product
wrapped to int32. -/
theorem nelem_eq_prod_of_fits (t : EinTup) (h : Heap) (ds : Dims)
    (hds : t.dims h = .ok ds) (hpos : ∀ d ∈ ds, 0 ≤ d)
    (hfit : ds.prod < 2147483648) :
    t.nelem h = .ok ds.prod := by
  unfold EinTup.nelem
  rw [hds]
  have hprodnn : 0 ≤ ds.prod := List.prod_nonneg hpos
  have : prod32 ds = ds.prod := by
    cases hne : ds with
    | nil => simp [prod32]
    | cons d rest =>
        rw [← hne]
        have hmod := prod32_foldl_emod ds 1
        rw [one_mul] at hmod
        have hrange := prod32_foldl_range ds 1 (by rw [hne]; simp)
        unfold prod32
        omega
  rw [Except.map, this]

/-- Witness for the amended C9: a rank-3 group with dims `[5, 6, 7]`. -/
theorem nelem_eq_prod_of_fits_witness :
    ((⟨"a", none, 0, none, none⟩ : EinTup).dims ⟨[some [5, 6, 7]]⟩
          = .ok [5, 6, 7]
        ∧ (∀ d ∈ ([5, 6, 7] : Dims), 0 ≤ d)
        ∧ ([5, 6, 7] : Dims).prod < 2147483648)
      ∧ (⟨"a", none, 0, none, none⟩ : EinTup).nelem ⟨[some [5, 6, 7]]⟩
          = .ok ([5, 6, 7] : Dims).prod :=
  ⟨⟨rfl, by decide, by decide⟩,
    nelem_eq_prod_of_fits ⟨"a", none, 0, none, none⟩ ⟨[some [5, 6, 7]]⟩
      [5, 6, 7] rfl (by decide) (by decide)⟩

/-- Counterexample to C9 as stated: dims `[99, 99, 99, 99, 99]` are all
inside the default `[5, 100)` sampling range at rank 5 ≤ 9, yet the
mathematical product `99^5 = 9509900499` overflows int32 and `nelem`
returns the wrapped value `919965907` instead. -/
theorem nelem_int32_overflow_cx :
    (⟨"a", none, 0, none, none⟩ : EinTup).nelem ⟨[some [99, 99, 99, 99, 99]]⟩
        = .ok 919965907
      ∧ ([99, 99, 99, 99, 99] : Dims).prod = 9509900499
      ∧ (919965907 : Int) ≠ 9509900499 := by
  refine ⟨rfl, by decide, by decide⟩

/-! ## C10: row-major iteration -/

theorem mem_ndindex : ∀ (dims : List Nat) (l : List Nat),
    l ∈ ndindex dims ↔ List.Forall₂ (fun i d => i < d) l dims := by
  intro dims
  induction dims with
  | nil =>
      intro l
      simp [ndindex, List.forall₂_nil_right_iff]
  | cons d rest ih =>
      intro l
      simp only [ndindex, List.mem_flatMap, List.mem_map, List.mem_range]
      constructor
      · rintro ⟨i, hi, t, ht, rfl⟩
        exact List.Forall₂.cons hi ((ih t).mp ht)
      · intro hf
        cases hf with
        | cons hid htl => exact ⟨_, hid, _, (ih _).mpr htl, rfl⟩

theorem ndindex_nodup : ∀ dims : List Nat, (ndindex dims).Nodup := by
  intro dims
  induction dims with
  | nil => simp [ndindex]
  | cons d rest ih =>
      rw [ndindex]
      rw [List.nodup_flatMap]
      constructor
      · intro i _
        exact ih.map (fun a b hab => by injection hab)
      · refine List.Pairwise.imp ?_ (List.nodup_range d)
        intro i j hij
        rw [Function.onFun, List.disjoint_left]
        rintro x hx hx2
        obtain ⟨t, _, rfl⟩ := List.mem_map.mp hx
        obtain ⟨t2, _, heq⟩ := List.mem_map.mp hx2
        injection heq with h1 _
        exact hij h1.symm

/-- C10: iterating an `EinTup` whose dims are set yields exactly the
multi-indices of its dims: the dims `[2, 3]` example in the declared
row-major order; `__iter__` always rebuilds the iterator from the
current dims, whatever iterator state was there before (restart from
scratch, same sequence); membership in the produced sequence is exactly
coordinatewise boundedness, with no duplicates; and `__next__` pops the
produced sequence in order, returning each multi-index. -/
theorem eintup_iteration_rowmajor (t : EinTup) (h : Heap) (ds : Dims)
    (hds : t.dims h = .ok ds) :
    ndindex [2, 3] = [[0, 0], [0, 1], [0, 2], [1, 0], [1, 1], [1, 2]]
      ∧ t.iter h = .ok { t with index := some (ndindex (ds.map Int.toNat)) }
      ∧ (∀ l, l ∈ ndindex (ds.map Int.toNat) ↔
            List.Forall₂ (fun i d => i < d) l (ds.map Int.toNat))
      ∧ (ndindex (ds.map Int.toNat)).Nodup
      ∧ (∀ (u : EinTup) (v : List Nat) (rest : List (List Nat)),
          u.index = some (v :: rest) →
            u.enext = .ok ({ u with index := some rest, val := some v }, v)) := by
  refine ⟨by decide, ?_, fun l => mem_ndindex _ l, ndindex_nodup _, ?_⟩
  · unfold EinTup.iter
    rw [hds]
    rfl
  · intro u v rest hu
    unfold EinTup.enext
    rw [hu]

/-- Witness for C10 at a concrete mid-iteration `EinTup` with dims
`[2, 3]`. -/
theorem eintup_iteration_rowmajor_witness :
    (⟨"a", none, 0, some [[9, 9]], some [9, 9]⟩ : EinTup).dims ⟨[some [2, 3]]⟩
        = .ok [2, 3]
      ∧ (ndindex [2, 3] = [[0, 0], [0, 1], [0, 2], [1, 0], [1, 1], [1, 2]]
        ∧ (⟨"a", none, 0, some [[9, 9]], some [9, 9]⟩ : EinTup).iter
              ⟨[some [2, 3]]⟩
            = .ok { (⟨"a", none, 0, some [[9, 9]], some [9, 9]⟩ : EinTup) with
                index := some (ndindex (([2, 3] : Dims).map Int.toNat)) }
        ∧ (∀ l, l ∈ ndindex (([2, 3] : Dims).map Int.toNat) ↔
              List.Forall₂ (fun i d => i < d) l (([2, 3] : Dims).map Int.toNat))
        ∧ (ndindex (([2, 3] : Dims).map Int.toNat)).Nodup
        ∧ (∀ (u : EinTup) (v : List Nat) (rest : List (List Nat)),
            u.index = some (v :: rest) →
              u.enext = .ok ({ u with index := some rest, val := some v }, v))) :=
  ⟨rfl, eintup_iteration_rowmajor ⟨"a", none, 0, some [[9, 9]], some [9, 9]⟩
    ⟨[some [2, 3]]⟩ [2, 3] rfl⟩

/-! ## C4: the rank search `gen_shapes` (runtime.py lines 188–196)

`gen_shapes` walks `np.ndindex((10,)*n)` over the primary group names;
for each rank combination `set_ranks` installs freshly sampled dims
(`np.random.randint(min_dim, max_dim, rank)` — an array of exactly
`rank` entries) into each primary group's Shape, then every constraint
node is evaluated and the rank map is yielded iff all hold.  The random
draw is abstracted as a `Sampler`; the theorems hold for every sampler
that returns `rank` many dims, which is what `np.random.randint`
guarantees.  A constraint node's value is a function of the installed
dims map. -/

abbrev Sampler := String → Nat → Dims

abbrev DimsMap := List (String × Dims)

abbrev RankMap := List (String × Nat)

/-- The dims map `set_ranks` installs for a given rank combination:
each primary name bound to its sampled dims (runtime.py lines 212–221). -/
def rank_dims_map (sample : Sampler) (names : List String)
    (combo : List Nat) : DimsMap :=
  (names.zip combo).map (fun p => (p.1, sample p.1 p.2))

/-- `Runtime.gen_shapes` (runtime.py lines 188–196): enumerate the full
rank space `{0,...,9}^n` in `np.ndindex` order, keep exactly the
combinations on which every constraint holds, and yield each survivor
as its name→rank map. -/
def gen_shapes (names : List String) (sample : Sampler)
    (cons : List (DimsMap → Bool)) : List RankMap :=
  ((ndindex (List.replicate names.length 10)).filter
      (fun combo => cons.all (fun c => c (rank_dims_map sample names combo)))).map
    (fun combo => names.zip combo)

/-- A constraint node rejecting rank 0 for the group `nm`: it reads the
group's installed dims and requires nonzero rank. -/
def rank_nonzero_con (nm : String) : DimsMap → Bool :=
  fun dm => decide (((dm.lookup nm).getD []).length ≠ 0)

theorem mem_ndindex_pair (l : List Nat) :
    l ∈ ndindex (List.replicate 2 10) ↔
      ∃ i j, i < 10 ∧ j < 10 ∧ l = [i, j] := by
  have hrep : List.replicate 2 10 = [10, 10] := rfl
  rw [hrep, mem_ndindex]
  constructor
  · intro hf
    cases hf with
    | cons hi htl =>
        cases htl with
        | cons hj hnil =>
            cases hnil
            exact ⟨_, _, hi, hj, rfl⟩
  · rintro ⟨i, j, hi, hj, rfl⟩
    exact List.Forall₂.cons hi (List.Forall₂.cons hj List.Forall₂.nil)

theorem rank0_con_on_pair (s : Sampler) (hs : ∀ nm r, (s nm r).length = r) :
    ∀ combo ∈ ndindex (List.replicate (["a", "b"] : List String).length 10),
      ([rank_nonzero_con "a"].all
          (fun c => c (rank_dims_map s ["a", "b"] combo)))
        = decide (combo.headD 0 ≠ 0) := by
  intro combo hc
  obtain ⟨i, j, hi, hj, rfl⟩ := (mem_ndindex_pair combo).mp hc
  simp [rank_nonzero_con, rank_dims_map, List.lookup, hs]

/-- C4, amended: over two primary groups the search space is the full
Cartesian product `{0,...,9} × {0,...,9}`; with no constraints exactly
100 rank maps are yielded; with one constraint rejecting rank 0 for one
group exactly 90 are yielded (the 10 combinations assigning that group
rank 0 are filtered out); and the yielded set is exact — every
constraint-satisfying combination appears and no rejected one does. -/
theorem gen_shapes_exact (s : Sampler)
    (hs : ∀ nm r, (s nm r).length = r) :
    (gen_shapes ["a", "b"] s []).length = 100
      ∧ (gen_shapes ["a", "b"] s [rank_nonzero_con "a"]).length = 90
      ∧ (∀ m, m ∈ gen_shapes ["a", "b"] s [rank_nonzero_con "a"] ↔
            ∃ i j, i < 10 ∧ j < 10 ∧ i ≠ 0 ∧ m = [("a", i), ("b", j)]) := by
  refine ⟨?_, ?_, ?_⟩
  · unfold gen_shapes
    rw [List.length_map]
    rw [List.filter_congr (q := fun _ => true) (by intro x hx; simp)]
    rw [List.filter_true]
    decide
  · unfold gen_shapes
    rw [List.length_map]
    rw [List.filter_congr (rank0_con_on_pair s hs)]
    decide
  · intro m
    unfold gen_shapes
    rw [List.mem_map]
    constructor
    · rintro ⟨combo, hcombo, rfl⟩
      rw [List.mem_filter] at hcombo
      obtain ⟨hmem, hcon⟩ := hcombo
      obtain ⟨i, j, hi, hj, rfl⟩ := (mem_ndindex_pair combo).mp hmem
      rw [rank0_con_on_pair s hs [i, j] hmem] at hcon
      refine ⟨i, j, hi, hj, by simpa using hcon, rfl⟩
    · rintro ⟨i, j, hi, hj, hne, rfl⟩
      refine ⟨[i, j], ?_, rfl⟩
      rw [List.mem_filter]
      refine ⟨(mem_ndindex_pair [i, j]).mpr ⟨i, j, hi, hj, rfl⟩, ?_⟩
      rw [rank0_con_on_pair s hs [i, j]
        ((mem_ndindex_pair [i, j]).mpr ⟨i, j, hi, hj, rfl⟩)]
      simpa using hne

/-- Witness for the amended C4, with the sampler that draws dims of 7
for every axis. -/
theorem gen_shapes_exact_witness :
    (∀ nm r, ((fun _ r => List.replicate r 7 : Sampler) nm r).length = r)
      ∧ ((gen_shapes ["a", "b"] (fun _ r => List.replicate r 7) []).length = 100
        ∧ (gen_shapes ["a", "b"] (fun _ r => List.replicate r 7)
            [rank_nonzero_con "a"]).length = 90
        ∧ (∀ m, m ∈ gen_shapes ["a", "b"] (fun _ r => List.replicate r 7)
              [rank_nonzero_con "a"] ↔
            ∃ i j, i < 10 ∧ j < 10 ∧ i ≠ 0 ∧ m = [("a", i), ("b", j)])) :=
  ⟨fun _ r => List.length_replicate r 7,
    gen_shapes_exact (fun _ r => List.replicate r 7)
      (fun _ r => List.length_replicate r 7)⟩

/-- Counterexample to C4 as stated: with two primary groups and one
constraint rejecting rank 0 for group "a", the search yields 90 rank
maps, not 99. -/
theorem gen_shapes_yield_count_cx :
    (gen_shapes ["a", "b"] (fun _ r => List.replicate r 7)
        [rank_nonzero_con "a"]).length = 90
      ∧ (90 : Nat) ≠ 99 := by
  constructor
  · decide
  · decide

/-! ## Loading a specification and `run` (runtime.py lines 142–184)

`parse_et_file` splits the file content with `re.split('\n\n+',
content.strip())`: maximal runs of two or more newlines separate
sections.  This is realized on the character list: split at every
newline, then runs of empty lines separate groups, each group rejoined
with single newlines.  The external grammar (`parse.py`, a collaborator
outside this core) is abstracted as a `Parser` record of total parsing
functions, one per mode; per the spec's collaborator contract it returns
AST nodes and does not touch the engine's fields. -/

/-- Python `split('\n')`: split at every single newline, keeping empty
pieces; in particular the empty text splits to `[""]`. -/
def splitNl : List Char → List (List Char)
  | [] => [[]]
  | c :: rest =>
      match splitNl rest with
      | [] => [[c]]
      | l :: ls => if c = '\n' then [] :: l :: ls else (c :: l) :: ls

/-- Split a line list into the groups delimited by empty lines. -/
def splitOnEmptyLine : List (List Char) → List (List (List Char))
  | [] => [[]]
  | l :: ls =>
      match splitOnEmptyLine ls with
      | [] => [[l]]
      | g :: gs => if l = [] then [] :: g :: gs else (l :: g) :: gs

/-- Python `str.strip()`. -/
def strip (cs : List Char) : List Char :=
  ((cs.dropWhile Char.isWhitespace).reverse.dropWhile Char.isWhitespace).reverse

/-- Python `str.replace('\n', ' ')`. -/
def replaceNlSpace (cs : List Char) : List Char :=
  cs.map (fun c => if c = '\n' then ' ' else c)

/-- `re.split('\n\n+', content.strip())`: the blank-line-delimited
sections of the file, in order. -/
def sectionsOf (content : String) : List String :=
  ((splitOnEmptyLine (splitNl (strip content.data))).filter
      (fun g => g ≠ [])).map (fun g => String.mk (List.intercalate ['\n'] g))

/-- The section texts `parse_et_file` extracts before parsing
(runtime.py lines 146–155): statement lines, the call text with
newlines joined to spaces, the output text likewise, and — crucially —
the constraint section defaulting to the empty string when absent, then
split on newlines (so an absent section leaves the single line `""`). -/
structure EtSections where
  statement_lines : List String
  tf_call_text : String
  tf_output_text : String
  constraint_lines : List String
deriving DecidableEq

def parse_et_sections (content : String) : Option EtSections :=
  match sectionsOf content with
  | stText :: callText :: outText :: rest =>
      some
        { statement_lines :=
            (splitNl (strip stText.data)).map (fun l => String.mk l)
          tf_call_text := String.mk (strip (replaceNlSpace callText.data))
          tf_output_text := String.mk (strip (replaceNlSpace outText.data))
          constraint_lines :=
            (splitNl (strip (rest.headD "").data)).map (fun l => String.mk l) }
  | _ => none

/-- The materialized array store (scratch state the statements write). -/
abbrev Arrays := List (String × Int)

/-- A statement AST node: evaluated for its side effect on `arrays`. -/
abbrev StNode := Arrays → Arrays

/-- A constraint AST node: `value()` reads the current state. -/
abbrev ConNode := Arrays → Bool

/-- A `TensorArg` output reference: a declared name and a value read
from the current state. -/
structure OutArg where
  name : String
  value : Arrays → Int

/-- The call-expression AST node (delegates to the tensor engine). -/
abbrev CallNode := Arrays → List Int

/-- The external grammar collaborator: one total parsing function per
section mode. -/
structure Parser where
  parseStatement : String → StNode
  parseCall : String → CallNode
  parseOutput : String → List OutArg
  parseConstraint : String → ConNode

/-- The engine state the claims touch.  In the Python source
`Runtime.__init__` assigns `statements`/`constraints` (as `None`) and
`parse_et_file` assigns `statements`, `tf_call`, `out_args`,
`constraints`; no method of the class ever assigns an attribute named
`outputs`, which is modelled by an `Option` field that `parse_et_file`
leaves `none`. -/
structure Runtime where
  arrays : Arrays
  statements : List StNode
  constraints : List ConNode
  tf_call : CallNode
  out_args : Option (List OutArg)
  outputs : Option (List OutArg)

/-- `Runtime.parse_et_file` (runtime.py lines 142–174): split sections,
parse each in its mode, store the parsed output references in
`out_args`.  (`post_parse_init` registers index groups on the node side
and does not assign engine fields.) -/
def parse_et_file (p : Parser) (content : String) : Option Runtime :=
  (parse_et_sections content).map (fun s =>
    { arrays := []
      statements := s.statement_lines.map p.parseStatement
      constraints := s.constraint_lines.map p.parseConstraint
      tf_call := p.parseCall s.tf_call_text
      out_args := some (p.parseOutput s.tf_output_text)
      outputs := none })

/-- `Runtime.run` (runtime.py lines 178–184): re-check the constraints
(returning no output when one fails), evaluate the statements in
declared order for their side effects, then read `self.outputs` —
raising AttributeError when that attribute was never assigned. -/
def Runtime.run (rt : Runtime) : Except PyErr (Option (List (String × Int))) :=
  if rt.constraints.all (fun c => c rt.arrays) then
    let a := rt.statements.foldl (fun ar st => st ar) rt.arrays
    match rt.outputs with
    | none => .error (.attributeError "outputs")
    | some outs => .ok (some (outs.map (fun o => (o.name, o.value a))))
  else
    .ok none

/-! ## C1 and C5: loading and running a program -/

/-- C1 (code bug): on every successfully loaded program whose
constraints all pass, `run` hits the never-assigned `outputs` attribute
and raises AttributeError — even though the declared output references
were parsed and stored (in `out_args`).  When a constraint fails, `run`
returns no output as the claim states; the claimed (name, value) result
set is unreachable. -/
theorem run_reads_missing_outputs_attribute (p : Parser) (content : String)
    (rt : Runtime) (hload : parse_et_file p content = some rt)
    (hcons : rt.constraints.all (fun c => c rt.arrays) = true) :
    rt.run = .error (.attributeError "outputs")
      ∧ rt.out_args.isSome = true := by
  unfold parse_et_file at hload
  cases hsec : parse_et_sections content with
  | none =>
      rw [hsec] at hload
      simp at hload
  | some s =>
      rw [hsec] at hload
      simp only [Option.map_some'] at hload
      have hrt := (Option.some_inj.mp hload).symm
      subst hrt
      constructor
      · unfold Runtime.run
        rw [hcons]
        rfl
      · rfl

/-- A concrete parser assigning trivial AST nodes to every text. -/
def constParser : Parser :=
  ⟨fun _ => fun ar => ar, fun _ => fun _ => [], fun _ => [],
    fun _ => fun _ => true⟩

/-- The runtime obtained by loading the three-section (constraint-less)
content `"x = y\n\nfoo()\n\nout"` with `constParser`. -/
def demoRt : Runtime :=
  { arrays := []
    statements := [fun ar => ar]
    constraints := [fun _ => true]
    tf_call := fun _ => []
    out_args := some []
    outputs := none }

/-- Witness for C1: the failing input evaluated. -/
theorem run_reads_missing_outputs_attribute_witness :
    (parse_et_file constParser "x = y\n\nfoo()\n\nout" = some demoRt
        ∧ demoRt.constraints.all (fun c => c demoRt.arrays) = true)
      ∧ (demoRt.run = .error (.attributeError "outputs")
        ∧ demoRt.out_args.isSome = true) :=
  ⟨⟨rfl, rfl⟩,
    run_reads_missing_outputs_attribute constParser "x = y\n\nfoo()\n\nout"
      demoRt rfl rfl⟩

/-- Counterexample to C5 as stated: loading a specification text whose
constraints section is absent leaves a NON-empty constraints list — the
empty-string default is split into the single line `""` and parsed. -/
theorem absent_constraints_not_empty_cx :
    parse_et_sections "x = y\n\nfoo()\n\nout"
        = some ⟨["x = y"], "foo()", "out", [""]⟩
      ∧ parse_et_file constParser "x = y\n\nfoo()\n\nout" = some demoRt
      ∧ demoRt.constraints ≠ [] := by
  refine ⟨rfl, rfl, ?_⟩
  simp [demoRt]

/-- C5, amended: when the constraints section is absent (the content has
exactly three blank-line-delimited sections), the engine does not treat
the constraints as empty; it invokes the constraint-mode parser exactly
once, on the empty string, and the loaded constraints list is that
single parsed node. -/
theorem absent_constraints_single_empty_parse (p : Parser)
    (content : String) (st call outp : String)
    (hsec : sectionsOf content = [st, call, outp]) :
    ∃ rt, parse_et_file p content = some rt
      ∧ rt.constraints = [p.parseConstraint ""]
      ∧ rt.constraints.length = 1 := by
  have hsections : parse_et_sections content = some
      { statement_lines := (splitNl (strip st.data)).map (fun l => String.mk l)
        tf_call_text := String.mk (strip (replaceNlSpace call.data))
        tf_output_text := String.mk (strip (replaceNlSpace outp.data))
        constraint_lines := [""] } := by
    unfold parse_et_sections
    rw [hsec]
    rfl
  unfold parse_et_file
  rw [hsections]
  exact ⟨_, rfl, rfl, rfl⟩

/-- Witness for the amended C5 at the concrete constraint-less
content. -/
theorem absent_constraints_single_empty_parse_witness :
    sectionsOf "x = y\n\nfoo()\n\nout" = ["x = y", "foo()", "out"]
      ∧ ∃ rt, parse_et_file constParser "x = y\n\nfoo()\n\nout" = some rt
          ∧ rt.constraints = [constParser.parseConstraint ""]
          ∧ rt.constraints.length = 1 :=
  ⟨rfl, absent_constraints_single_empty_parse constParser
    "x = y\n\nfoo()\n\nout" "x = y" "foo()" "out" rfl⟩

/-! ## The instrumentation wrapper (opcheck.py)

The wrapper's own control flow (argument binding, try/except/else/
finally, re-raise) is embedded from opcheck.py lines 19–55.  The
`Schema` collaborator (`schema.py`, part of this repository but not
under src/) is abstracted: its observable actions are recorded as
events.  The wrapped operation's behaviour is a parameter: either a
normal return value or a raised exception. -/

/-- The process-wide configuration singleton (opcheck.py line 8):
`SimpleNamespace(validate=False)`. -/
structure OcConfig where
  validate : Bool

/-- `validate_schema` (opcheck.py lines 10–11): set the global toggle. -/
def validate_schema (b : Bool) (c : OcConfig) : OcConfig :=
  { c with validate := b }

/-- The observable actions of one wrapped invocation, in order. -/
inductive WEvent where
  | inputCheck
  | inputDiag (passed : Bool)
  | frameworkDiag
  | outputCheck
  | finalReport
deriving DecidableEq

/-- Modelled from the spec: `Schema.evaluate` lives in schema.py, which
is not under src/; per the spec the `validate_schema` toggle "globally
enables/disables whether this instrumentation performs its checks", so
the input-validation check runs iff `config.validate` (returning a pass
verdict trivially when disabled). -/
def schema_evaluate (cfg : OcConfig) (inputsValid : Bool) :
    List WEvent × Bool :=
  if cfg.validate then ([.inputCheck], inputsValid) else ([], true)

/-- Modelled from the spec: `Schema.validate` (output validation) lives
in schema.py, not under src/; it performs the output-validation check
iff `config.validate`. -/
def schema_validate (cfg : OcConfig) : List WEvent :=
  if cfg.validate then [.outputCheck] else []

/-- The `wrapper` closure of `register` (opcheck.py lines 19–55): run
input validation and print its verdict; call the wrapped operation —
on an exception print a diagnostic and remember the exception, on a
normal return run output validation; in `finally` always emit the
schema's report and re-raise the remembered exception; otherwise return
the operation's value unchanged. -/
def wrapper {Exc Val : Type} (cfg : OcConfig) (inputsValid : Bool)
    (callRes : Except Exc Val) : List WEvent × Except Exc Val :=
  let ev := schema_evaluate cfg inputsValid
  let pre := ev.1 ++ [.inputDiag ev.2]
  match callRes with
  | .error ex => (pre ++ [.frameworkDiag] ++ [.finalReport], .error ex)
  | .ok v => (pre ++ schema_validate cfg ++ [.finalReport], .ok v)

/-! ## C2 and C8: the wrapper's contract -/

/-- C2 (spec-modelled): after `validate_schema b`, every invocation of a
registered operation performs the input-validation check iff `b`, and
the output-validation check iff `b` and the wrapped call returned
normally (on an exception outputs are never evaluated); the toggle is
the process-wide configuration consulted by all subsequent calls. -/
theorem wrapper_checks_iff_toggle (cfg0 : OcConfig) (b iv : Bool)
    (r : Except String Int) :
    (WEvent.inputCheck ∈ (wrapper (validate_schema b cfg0) iv r).1 ↔ b = true)
      ∧ (WEvent.outputCheck ∈ (wrapper (validate_schema b cfg0) iv r).1 ↔
          (b = true ∧ ∃ v, r = .ok v)) := by
  unfold wrapper validate_schema schema_evaluate schema_validate
  cases b with
  | false =>
      cases r with
      | error e => simp
      | ok v => simp
  | true =>
      cases r with
      | error e =>
          simp only [if_true]
          constructor
          · simp
          · simp
      | ok v =>
          simp only [if_true]
          constructor
          · simp
          · simp
          
/-- C8: if the wrapped operation raises, the wrapper emits the framework
diagnostic, still emits the schema's final report as its last action,
and re-raises the very exception it captured; if the operation returns
normally the wrapper returns that value unchanged, again with the final
report emitted last. -/
theorem wrapper_reports_and_reraises (cfg : OcConfig) (iv : Bool)
    (ex : String) (v : Int) :
    (wrapper cfg iv (Except.error ex : Except String Int)).2
        = Except.error ex
      ∧ WEvent.frameworkDiag ∈ (wrapper cfg iv
          (Except.error ex : Except String Int)).1
      ∧ (wrapper cfg iv (Except.error ex : Except String Int)).1.getLast?
          = some WEvent.finalReport
      ∧ (wrapper cfg iv (Except.ok v : Except String Int)).2 = Except.ok v
      ∧ (wrapper cfg iv (Except.ok v : Except String Int)).1.getLast?
          = some WEvent.finalReport := by
  unfold wrapper schema_evaluate schema_validate
  cases hb : cfg.validate with
  | false => simp
  | true => simp
